import Mathlib

/-!
Verification of the gosummarize tool: a shallow embedding of its core
(`findGoFiles`, `summarizeFile`, `processDeclaration`) together with proofs
of the documented properties.

Modelling conventions:
- The Go `ast` nodes are mirrored by Lean structures carrying exactly the
  attributes the tool reads.  Sub-expressions that the tool only ever
  re-serializes through `printer.Fprint` (field types, value initializers,
  function types, receiver types, non-struct type definitions) are carried
  as their pretty-printed text, since the tool treats them opaquely.
- `Doc.Text()` results are carried as `Option String` (`none` models a nil
  doc node).
- Each `fmt.Printf`/`fmt.Println` line the tool emits becomes one
  constructor of `OutLine`; `renderLine` recovers the exact printed text
  (without the trailing newline).
- `go/parser.ParseFile` is external; a file's content is represented by its
  parse outcome (`ParseResult`), which is all the tool observes of it.
- The file system walked by `filepath.Walk` is modelled as a finite tree.
-/

namespace GoSummarize

/-- Models Go `ast.IsExported` / `Ident.IsExported`: the first character of
the name is an upper-case letter.  (Go consults the full Unicode upper-case
table; the tool's behaviour on ASCII identifiers, which is what every claim
exercises, is captured exactly.) -/
def isExportedName (s : String) : Bool :=
  match s.data with
  | [] => false
  | c :: _ => c.isUpper

/-- Models `ast.Ident` as the tool uses it: a name. -/
structure Ident where
  name : String
deriving DecidableEq

def Ident.isExported (i : Ident) : Bool :=
  isExportedName i.name

/-- Models `ast.Field` inside a struct field list: the declared names, the
pretty-printed field type, and the field doc text (`none` when `field.Doc`
is nil). -/
structure FieldEntry where
  names : List Ident
  typeText : String
  doc : Option String
deriving DecidableEq

/-- Models the `s.Type` of a type spec as the tool inspects it: either a
`*ast.StructType` (whose `Fields` pointer may be nil) or any other type
expression.  In both cases `text` is the pretty-printed form of the whole
type expression, used when the struct branch is not taken. -/
inductive TypeE where
  | structType (fields : Option (List FieldEntry)) (text : String)
  | otherType (text : String)
deriving DecidableEq

/-- Models `fn.Recv.List[0]`: the single receiver parameter, with its bound
names and pretty-printed type. -/
structure Receiver where
  names : List Ident
  typeText : String
deriving DecidableEq

/-- Models `*ast.FuncDecl`: name, doc text, optional receiver (the first
entry of `fn.Recv.List` when `fn.Recv` is non-nil), and the pretty-printed
`fn.Type` (which begins with the keyword "func"). -/
structure FuncDecl where
  name : Ident
  doc : Option String
  recv : Option Receiver
  typeText : String
deriving DecidableEq

/-- Models `gen.Tok` of a `*ast.GenDecl`. -/
inductive Tok where
  | constTok
  | varTok
  | typeTok
  | importTok
deriving DecidableEq

/-- Models the specs of a `*ast.GenDecl` that `processDeclaration`
inspects: `*ast.TypeSpec` and `*ast.ValueSpec` (an `*ast.ImportSpec`
matches neither case and contributes nothing, which the `.flatMap` over the
two constructors below reproduces since import decls carry no such spec).
For a value spec, `typeText` models `s.Type` (`none` when nil) and each
entry of `values` models one element of `s.Values` (`none` models a nil
expression entry). -/
inductive Spec where
  | typeSpec (name : Ident) (ty : TypeE)
  | valueSpec (names : List Ident) (typeText : Option String) (values : List (Option String))
deriving DecidableEq

/-- Models `ast.Decl` as dispatched on by `processDeclaration`: a
`*ast.FuncDecl`, a `*ast.GenDecl`, or anything else (ignored). -/
inductive Decl where
  | funcDecl (fn : FuncDecl)
  | genDecl (tok : Tok) (doc : Option String) (specs : List Spec)
  | otherDecl
deriving DecidableEq

/-- One printed line of output; each constructor corresponds to one
`fmt.Printf`/`fmt.Println` call site in the tool. -/
inductive OutLine where
  | startMarker (path : String)
  | endMarker (path : String)
  | methodNamed (recvVar recvType name sig : String)
  | methodAnon (recvType name sig : String)
  | funcPlain (name sig : String)
  | docLine (text : String)
  | blank
  | structHeader (name : String)
  | fieldDocLine (text : String)
  | fieldLine (name fieldType : String)
  | closeBrace
  | typeLine (name text : String)
  | valueLine (label name typeStr valueStr : String)
  | errLine (text : String)
deriving DecidableEq

/-- The exact text of each printed line (newlines excluded; `blank` is the
empty line produced by `fmt.Println()` and by the second `\n` of the marker
format strings). -/
def renderLine : OutLine → String
  | .startMarker p => "<<<FILE_START>>> " ++ p
  | .endMarker p => "<<<FILE_END>>> " ++ p
  | .methodNamed rv rt n sig => "func (" ++ rv ++ " " ++ rt ++ ") " ++ n ++ sig
  | .methodAnon rt n sig => "func (" ++ rt ++ ") " ++ n ++ sig
  | .funcPlain n sig => "func " ++ n ++ sig
  | .docLine t => "    " ++ t
  | .blank => ""
  | .structHeader n => "type " ++ n ++ " struct \x7b"
  | .fieldDocLine t => "\t// " ++ t
  | .fieldLine n t => "\t" ++ n ++ "\t" ++ t
  | .closeBrace => "\x7d"
  | .typeLine n t => "type " ++ n ++ " " ++ t
  | .valueLine lbl n ts vs => lbl ++ " " ++ n ++ ts ++ vs
  | .errLine t => t

/-- Models `strings.TrimSpace`: drop leading and trailing whitespace
characters.  (Go consults `unicode.IsSpace`; the ASCII whitespace behaviour,
which is what doc comments exercise, is captured exactly.) -/
def trimS (s : String) : String :=
  String.mk (((s.data.dropWhile Char.isWhitespace).reverse.dropWhile Char.isWhitespace).reverse)

/-- Models `strings.TrimPrefix(s, "func")`: drop the leading four
characters when the string starts with "func", else return it unchanged. -/
def trimFunc (s : String) : String :=
  if ("func".data).isPrefixOf s.data then String.mk (s.data.drop 4) else s

/-- The doc-printing step shared by every branch of `processDeclaration`:
`doc := ""` overwritten from the node's doc when non-nil, then
`if doc != ""` print the trimmed doc indented by four spaces. -/
def docBlock (doc : Option String) : List OutLine :=
  let d := doc.getD ""
  if d = "" then [] else [OutLine.docLine (trimS d)]

/-- The receiver variable name: `recvList.Names[0].Name` when a name is
bound, else the empty string. -/
def recvVarName (recvList : Receiver) : String :=
  match recvList.names with
  | n :: _ => n.name
  | [] => ""

/-- The signature line printed for an exported function or method: the
receiver clause is present exactly when `fn.Recv` is non-nil, spelled with
the receiver variable when one is bound. -/
def funcSigLine (fn : FuncDecl) : OutLine :=
  match fn.recv with
  | some recvList =>
      if recvVarName recvList ≠ "" then
        OutLine.methodNamed (recvVarName recvList) recvList.typeText fn.name.name
          (trimFunc fn.typeText)
      else
        OutLine.methodAnon recvList.typeText fn.name.name (trimFunc fn.typeText)
  | none => OutLine.funcPlain fn.name.name (trimFunc fn.typeText)

/-- The `*ast.FuncDecl` branch of `processDeclaration` (its first `if`
block): unexported functions produce nothing; exported ones produce the
signature line, the doc block, and a blank line. -/
def processFuncDecl (fn : FuncDecl) : List OutLine :=
  if fn.name.isExported then
    funcSigLine fn :: (docBlock fn.doc ++ [OutLine.blank])
  else []

/-- The per-field body of the struct-field loop: print only fields with at
least one declared name whose first name is exported, preceded by the field
doc when present and non-empty. -/
def renderField (f : FieldEntry) : List OutLine :=
  match f.names with
  | n :: _ =>
      if n.isExported then
        (match f.doc with
         | some d => if d ≠ "" then [OutLine.fieldDocLine (trimS d)] else []
         | none => []) ++ [OutLine.fieldLine n.name f.typeText]
      else []
  | [] => []

/-- The `*ast.TypeSpec` case of `processDeclaration`: structs with a
non-nil field list get a filtered field-by-field rendering; everything else
is printed verbatim as `type <Name> <definition>`. -/
def renderTypeSpec (genDoc : Option String) (name : Ident) (ty : TypeE) : List OutLine :=
  if name.isExported then
    (match ty with
     | .structType (some fields) _ =>
         OutLine.structHeader name.name ::
           (fields.flatMap renderField ++ [OutLine.closeBrace])
     | .structType none text => [OutLine.typeLine name.name text]
     | .otherType text => [OutLine.typeLine name.name text]) ++
    (docBlock genDoc ++ [OutLine.blank])
  else []

/-- The label chosen for a value spec: "const" when `gen.Tok == token.CONST`,
else "var". -/
def valueLabel (tok : Tok) : String :=
  match tok with
  | .constTok => "const"
  | _ => "var"

/-- The type clause of a value line: present exactly when the spec
explicitly states a type (`s.Type != nil`). -/
def valueTypeStr (typeText : Option String) : String :=
  match typeText with
  | some t => " " ++ t
  | none => ""

/-- The value clause: present exactly when an initializer expression exists
at index `i` of `s.Values`. -/
def valueValueStr (values : List (Option String)) (i : Nat) : String :=
  match values[i]? with
  | some (some v) => " = " ++ v
  | _ => ""

/-- The body of the `for i, name := range s.Names` loop of the
`*ast.ValueSpec` case: skip unexported names; otherwise print
`<label> <Name><typeStr><valueStr>`, the shared group doc when non-empty,
and a blank line. -/
def renderValueName (tok : Tok) (genDoc : Option String) (typeText : Option String)
    (values : List (Option String)) (i : Nat) (name : Ident) : List OutLine :=
  if name.isExported then
    OutLine.valueLine (valueLabel tok) name.name (valueTypeStr typeText)
        (valueValueStr values i) ::
      (docBlock genDoc ++ [OutLine.blank])
  else []

/-- One spec of a `*ast.GenDecl`, as handled by the `switch` inside
`processDeclaration`. -/
def renderSpec (tok : Tok) (genDoc : Option String) : Spec → List OutLine
  | .typeSpec name ty => renderTypeSpec genDoc name ty
  | .valueSpec names typeText values =>
      names.enum.flatMap (fun p => renderValueName tok genDoc typeText values p.1 p.2)

/-- Models `processDeclaration`: dispatch on the declaration's dynamic
type; anything that is neither a func decl nor a gen decl prints nothing. -/
def processDeclaration : Decl → List OutLine
  | .funcDecl fn => processFuncDecl fn
  | .genDecl tok doc specs => specs.flatMap (renderSpec tok doc)
  | .otherDecl => []

/-- A parsed file: its top-level declarations in source order. -/
structure GoFile where
  decls : List Decl
deriving DecidableEq

/-- What the tool observes of a file's content: the outcome of
`parser.ParseFile` on it — a syntax tree, or a parse error message. -/
inductive ParseResult where
  | ok (file : GoFile)
  | failed (msg : String)
deriving DecidableEq

/-- The error text built by `summarizeFile` on parse failure. -/
def parseErrMsg (filePath msg : String) : String :=
  "error parsing " ++ filePath ++ ": " ++ msg

/-- Models `summarizeFile`: on parse failure return the error before any
output; on success print the start marker (plus blank line), every
declaration in order, and the end marker (plus blank line). -/
def summarizeFile (filePath : String) (parsed : ParseResult) : Except String (List OutLine) :=
  match parsed with
  | .failed msg => .error (parseErrMsg filePath msg)
  | .ok file =>
      .ok ([OutLine.startMarker filePath, OutLine.blank] ++
           file.decls.flatMap processDeclaration ++
           [OutLine.endMarker filePath, OutLine.blank])

/-- Models the per-file loop of `main`: each file is summarized; an error
is printed with `fmt.Println(err)` and the loop continues with the next
file. -/
def runFiles (files : List (String × ParseResult)) : List OutLine :=
  files.flatMap fun fc =>
    match summarizeFile fc.1 fc.2 with
    | .ok lines => lines
    | .error e => [OutLine.errLine e]

/-- The name printed in a declared-name position of a line: the declared
function/method name, the declared type name, the struct field name, or the
const/var name.  (Receiver variables, doc text and pretty-printed type text
are not declared-name positions.) -/
def declaredNameOf : OutLine → Option String
  | .methodNamed _ _ n _ => some n
  | .methodAnon _ n _ => some n
  | .funcPlain n _ => some n
  | .structHeader n => some n
  | .typeLine n _ => some n
  | .fieldLine n _ => some n
  | .valueLine _ n _ _ => some n
  | _ => none

/-- Whether a line is a struct field line. -/
def isFieldLine : OutLine → Bool
  | .fieldLine _ _ => true
  | _ => false

/-- Whether a struct field entry is rendered: it has at least one declared
name and its first name is exported. -/
def exportedField (f : FieldEntry) : Bool :=
  match f.names with
  | n :: _ => n.isExported
  | [] => false

/-- A directory tree, modelling the subtree `filepath.Walk` traverses. -/
inductive FsEntry where
  | file (name : String)
  | dir (name : String) (entries : List FsEntry)

def FsEntry.entryName : FsEntry → String
  | .file n => n
  | .dir n _ => n

/-- Path joining as performed by `filepath.Walk` when descending. -/
def joinPath (dirPath name : String) : String :=
  dirPath ++ "/" ++ name

/-- Models `strings.HasSuffix`. -/
def hasSuffix (s suffix : String) : Bool :=
  suffix.data.isSuffixOf s.data

mutual

/-- The visit sequence of `filepath.Walk`: every entry of the subtree with
its full path and whether it is a directory. -/
def visits : String → FsEntry → List (String × Bool)
  | p, .file _ => [(p, false)]
  | p, .dir _ es => (p, true) :: visitsList p es

def visitsList : String → List FsEntry → List (String × Bool)
  | _, [] => []
  | p, c :: cs => visits (joinPath p c.entryName) c ++ visitsList p cs

end

/-- The body of the walk function inside `findGoFiles`: keep non-directory
paths ending in ".go", except that with `ignoreTests` set, paths ending in
"_test.go" are skipped. -/
def walkStep (ignoreTests : Bool) (v : String × Bool) : Option String :=
  if !v.2 && hasSuffix v.1 ".go" then
    if ignoreTests && hasSuffix v.1 "_test.go" then none
    else some v.1
  else none

/-- Models `findGoFiles root ignoreTests` over the modelled tree rooted at
`rootPath`. -/
def findGoFiles (rootPath : String) (root : FsEntry) (ignoreTests : Bool) : List String :=
  (visits rootPath root).filterMap (walkStep ignoreTests)

/-- Whether a line is the start marker emitted for a file. -/
def isStartMarkLine : OutLine → Bool
  | .startMarker _ => true
  | _ => false

/-- Whether a line is the end marker emitted for a file. -/
def isEndMarkLine : OutLine → Bool
  | .endMarker _ => true
  | _ => false

/-! ### Helper lemmas -/

theorem mem_docBlock {l : OutLine} {o : Option String} (h : l ∈ docBlock o) :
    l = OutLine.docLine (trimS (o.getD "")) := by
  simp only [docBlock] at h
  split at h
  · simp at h
  · simpa using h

theorem declaredNameOf_docBlock {l : OutLine} {o : Option String} (h : l ∈ docBlock o) :
    declaredNameOf l = none := by
  rw [mem_docBlock h]
  rfl

theorem renderField_first_name {f : FieldEntry} {l : OutLine} {n : String}
    (hl : l ∈ renderField f) (hn : declaredNameOf l = some n) :
    ∃ nm rest, f.names = nm :: rest ∧ n = nm.name ∧ nm.isExported = true := by
  unfold renderField at hl
  split at hl
  case h_1 nm rest heq =>
    split at hl
    case isTrue hexp =>
      rcases List.mem_append.mp hl with h | h
      · exfalso
        split at h
        · split at h
          · rw [List.mem_singleton.mp h] at hn
            simp [declaredNameOf] at hn
          · simp at h
        · simp at h
      · rw [List.mem_singleton.mp h] at hn
        simp only [declaredNameOf, Option.some.injEq] at hn
        exact ⟨nm, rest, heq, hn.symm, hexp⟩
    case isFalse => simp at hl
  case h_2 => simp at hl

theorem renderField_anonymous {typeText : String} {doc : Option String} :
    renderField ⟨[], typeText, doc⟩ = [] := rfl

theorem renderField_unexported_head {nm : Ident} {rest : List Ident}
    {typeText : String} {doc : Option String} (h : nm.isExported = false) :
    renderField ⟨nm :: rest, typeText, doc⟩ = [] := by
  unfold renderField
  simp [h]

theorem countP_renderField (f : FieldEntry) :
    (renderField f).countP isFieldLine = if exportedField f then 1 else 0 := by
  unfold renderField exportedField
  split
  case h_1 nm rest heq =>
    split
    case isTrue hexp =>
      split
      case h_1 d heq2 =>
        split <;> simp [isFieldLine, List.countP_cons, List.countP_nil]
      case h_2 => simp [isFieldLine, List.countP_cons, List.countP_nil]
    case isFalse hexp => simp [hexp]
  case h_2 => simp

theorem countP_flatMap_renderField (fields : List FieldEntry) :
    (fields.flatMap renderField).countP isFieldLine = fields.countP exportedField := by
  induction fields with
  | nil => rfl
  | cons f fs ih =>
      simp only [List.flatMap_cons, List.countP_append, List.countP_cons, ih,
        countP_renderField]
      split <;> omega

theorem funcSigLine_some {fn : FuncDecl} {r : Receiver} (hr : fn.recv = some r) :
    funcSigLine fn
      = if recvVarName r ≠ "" then
          OutLine.methodNamed (recvVarName r) r.typeText fn.name.name (trimFunc fn.typeText)
        else
          OutLine.methodAnon r.typeText fn.name.name (trimFunc fn.typeText) := by
  unfold funcSigLine
  rw [hr]

theorem funcSigLine_none {fn : FuncDecl} (hr : fn.recv = none) :
    funcSigLine fn = OutLine.funcPlain fn.name.name (trimFunc fn.typeText) := by
  unfold funcSigLine
  rw [hr]

theorem declaredNameOf_funcSigLine (fn : FuncDecl) :
    declaredNameOf (funcSigLine fn) = some fn.name.name := by
  unfold funcSigLine
  split
  · split <;> rfl
  · rfl

theorem processFuncDecl_declaredName {fn : FuncDecl} {l : OutLine} {n : String}
    (hl : l ∈ processFuncDecl fn) (hn : declaredNameOf l = some n) :
    isExportedName n = true := by
  unfold processFuncDecl at hl
  split at hl
  case isTrue hexp =>
    rcases List.mem_cons.mp hl with rfl | h
    · rw [declaredNameOf_funcSigLine] at hn
      obtain rfl := Option.some.inj hn
      exact hexp
    · rcases List.mem_append.mp h with h | h
      · rw [declaredNameOf_docBlock h] at hn
        cases hn
      · rw [List.mem_singleton.mp h] at hn
        cases hn
  case isFalse => simp at hl

theorem renderTypeSpec_declaredName {genDoc : Option String} {name : Ident} {ty : TypeE}
    {l : OutLine} {n : String}
    (hl : l ∈ renderTypeSpec genDoc name ty) (hn : declaredNameOf l = some n) :
    isExportedName n = true := by
  unfold renderTypeSpec at hl
  split at hl
  case isTrue hexp =>
    rcases List.mem_append.mp hl with h | h
    · split at h
      case h_1 =>
        rcases List.mem_cons.mp h with rfl | h
        · obtain rfl := Option.some.inj hn
          exact hexp
        · rcases List.mem_append.mp h with h | h
          · obtain ⟨f, _, hlf⟩ := List.mem_flatMap.mp h
            obtain ⟨nm, rest, _, rfl, hex⟩ := renderField_first_name hlf hn
            exact hex
          · rw [List.mem_singleton.mp h] at hn
            cases hn
      case h_2 =>
        rw [List.mem_singleton.mp h] at hn
        obtain rfl := Option.some.inj hn
        exact hexp
      case h_3 =>
        rw [List.mem_singleton.mp h] at hn
        obtain rfl := Option.some.inj hn
        exact hexp
    · rcases List.mem_append.mp h with h | h
      · rw [declaredNameOf_docBlock h] at hn
        cases hn
      · rw [List.mem_singleton.mp h] at hn
        cases hn
  case isFalse => simp at hl

theorem renderValueName_declaredName {tok : Tok} {genDoc typeText : Option String}
    {values : List (Option String)} {i : Nat} {name : Ident} {l : OutLine} {n : String}
    (hl : l ∈ renderValueName tok genDoc typeText values i name)
    (hn : declaredNameOf l = some n) :
    n = name.name ∧ name.isExported = true := by
  unfold renderValueName at hl
  split at hl
  case isTrue hexp =>
    rcases List.mem_cons.mp hl with rfl | h
    · exact ⟨(Option.some.inj hn).symm, hexp⟩
    · rcases List.mem_append.mp h with h | h
      · rw [declaredNameOf_docBlock h] at hn
        cases hn
      · rw [List.mem_singleton.mp h] at hn
        cases hn
  case isFalse => simp at hl

theorem walkStep_false_eq_some {q : String} {d : Bool} {p : String} :
    walkStep false (q, d) = some p
      ↔ (q = p ∧ d = false ∧ hasSuffix q ".go" = true) := by
  unfold walkStep
  cases d <;> by_cases hs : hasSuffix q ".go" = true <;> simp [hs]

theorem mem_findGoFiles_false {rootPath : String} {root : FsEntry} {p : String} :
    p ∈ findGoFiles rootPath root false
      ↔ ((p, false) ∈ visits rootPath root ∧ hasSuffix p ".go" = true) := by
  unfold findGoFiles
  rw [List.mem_filterMap]
  constructor
  · rintro ⟨⟨q, d⟩, hv, hw⟩
    obtain ⟨rfl, rfl, hs⟩ := walkStep_false_eq_some.mp hw
    exact ⟨hv, hs⟩
  · rintro ⟨hv, hs⟩
    exact ⟨(p, false), hv, walkStep_false_eq_some.mpr ⟨rfl, rfl, hs⟩⟩

theorem visitsList_decomp {c : FsEntry} {es : List FsEntry} (h : c ∈ es) (p : String) :
    ∃ l1 l2, visitsList p es = l1 ++ (visits (joinPath p c.entryName) c ++ l2) := by
  induction es with
  | nil => cases h
  | cons e es ih =>
      rcases List.mem_cons.mp h with rfl | h
      · exact ⟨[], visitsList p es, by simp [visitsList]⟩
      · obtain ⟨l1, l2, hl⟩ := ih h
        exact ⟨visits (joinPath p e.entryName) e ++ l1, l2, by simp [visitsList, hl]⟩

theorem findGoFiles_subdir {rootPath dirName : String} {entries : List FsEntry}
    {c : FsEntry} (hc : c ∈ entries) (b : Bool) {p : String}
    (hp : p ∈ findGoFiles (joinPath rootPath c.entryName) c b) :
    p ∈ findGoFiles rootPath (FsEntry.dir dirName entries) b := by
  unfold findGoFiles at hp ⊢
  obtain ⟨v, hv, hw⟩ := List.mem_filterMap.mp hp
  obtain ⟨l1, l2, hl⟩ := visitsList_decomp hc rootPath
  refine List.mem_filterMap.mpr ⟨v, ?_, hw⟩
  have hvis : visits rootPath (FsEntry.dir dirName entries)
      = (rootPath, true) :: visitsList rootPath entries := by
    simp [visits]
  rw [hvis, hl]
  exact List.mem_cons_of_mem _ (by simp [hv])

theorem walkStep_true_filter (l : List (String × Bool)) :
    l.filterMap (walkStep true)
      = (l.filterMap (walkStep false)).filter (fun p => !(hasSuffix p "_test.go")) := by
  induction l with
  | nil => rfl
  | cons v vs ih =>
      obtain ⟨q, d⟩ := v
      simp only [List.filterMap_cons]
      cases d
      · by_cases h1 : hasSuffix q ".go" = true
        · by_cases h2 : hasSuffix q "_test.go" = true
          · simp [walkStep, h1, h2, ih, List.filter_cons]
          · simp [walkStep, h1, h2, ih, List.filter_cons]
        · simp [walkStep, h1, ih]
      · simp [walkStep, ih]

theorem runFiles_append (xs ys : List (String × ParseResult)) :
    runFiles (xs ++ ys) = runFiles xs ++ runFiles ys := by
  unfold runFiles
  rw [List.flatMap_append]

theorem runFiles_cons (f : String × ParseResult) (fs : List (String × ParseResult)) :
    runFiles (f :: fs)
      = (match summarizeFile f.1 f.2 with
         | .ok lines => lines
         | .error e => [OutLine.errLine e]) ++ runFiles fs := by
  unfold runFiles
  rw [List.flatMap_cons]

theorem renderSpec_declaredName {tok : Tok} {genDoc : Option String} {s : Spec}
    {l : OutLine} {n : String}
    (hl : l ∈ renderSpec tok genDoc s) (hn : declaredNameOf l = some n) :
    isExportedName n = true := by
  rcases s with ⟨name, ty⟩ | ⟨names, typeText, values⟩
  · exact renderTypeSpec_declaredName hl hn
  · simp only [renderSpec] at hl
    obtain ⟨p, _, hlp⟩ := List.mem_flatMap.mp hl
    obtain ⟨rfl, hex⟩ := renderValueName_declaredName hlp hn
    exact hex

/-! ### Claim theorems -/

/-- Claim C1: for any top-level declaration of any source file, every
identifier printed by `processDeclaration` in a declared-name position
(function or method name, type name, struct field name, const or var name)
is exported; no unexported identifier ever occupies such a position in the
rendered output. -/
theorem C1_no_unexported_declared_name (d : Decl) (l : OutLine) (n : String)
    (hl : l ∈ processDeclaration d) (hn : declaredNameOf l = some n) :
    isExportedName n = true := by
  rcases d with fn | ⟨tok, doc, specs⟩ | _
  · exact processFuncDecl_declaredName hl hn
  · simp only [processDeclaration] at hl
    obtain ⟨s, _, hls⟩ := List.mem_flatMap.mp hl
    exact renderSpec_declaredName hls hn
  · simp [processDeclaration] at hl

/-- Witness for C1: a const group declaring exported `X` and unexported
`y`; the rendered const line carries the name `X`, which is exported. -/
theorem C1_witness :
    OutLine.valueLine "const" "X" "" " = 1"
        ∈ processDeclaration (Decl.genDecl Tok.constTok none
            [Spec.valueSpec [⟨"X"⟩, ⟨"y"⟩] none [some "1", some "2"]])
  ∧ isExportedName "X" = true := by
  refine ⟨by decide, ?_⟩
  exact C1_no_unexported_declared_name
    (Decl.genDecl Tok.constTok none
      [Spec.valueSpec [⟨"X"⟩, ⟨"y"⟩] none [some "1", some "2"]])
    (OutLine.valueLine "const" "X" "" " = 1") "X" (by decide) (by decide)

/-- Claim C2: an exported method whose receiver binds a variable renders as
`func (<recvVar> <recvType>) <Name><signature>`; with an anonymous receiver
it renders as `func (<recvType>) <Name><signature>`; an exported receiver-
less function renders as `func <Name><signature>`; in each case the
signature is the pretty-printed function type with the leading "func"
stripped, and every rendered method line begins with "func (". -/
theorem C2_method_format (fn : FuncDecl) (hexp : fn.name.isExported = true) :
    (∀ r rv rest, fn.recv = some r → r.names = rv :: rest → rv.name ≠ "" →
       (processFuncDecl fn).head?.map renderLine
         = some ("func (" ++ rv.name ++ " " ++ r.typeText ++ ") " ++ fn.name.name
             ++ trimFunc fn.typeText))
  ∧ (∀ r, fn.recv = some r → r.names = [] →
       (processFuncDecl fn).head?.map renderLine
         = some ("func (" ++ r.typeText ++ ") " ++ fn.name.name ++ trimFunc fn.typeText))
  ∧ (fn.recv = none →
       (processFuncDecl fn).head?.map renderLine
         = some ("func " ++ fn.name.name ++ trimFunc fn.typeText))
  ∧ (∀ r, fn.recv = some r →
       ∃ t, (processFuncDecl fn).head?.map renderLine = some ("func (" ++ t)) := by
  have hhead : (processFuncDecl fn).head? = some (funcSigLine fn) := by
    unfold processFuncDecl
    rw [if_pos hexp]
    rfl
  refine ⟨?_, ?_, ?_, ?_⟩
  · rintro r rv rest hr hnames hne
    have hrv : recvVarName r = rv.name := by
      unfold recvVarName
      rw [hnames]
    rw [hhead, funcSigLine_some hr, hrv, if_pos hne]
    rfl
  · rintro r hr hnames
    have hrv : recvVarName r = "" := by
      unfold recvVarName
      rw [hnames]
    rw [hhead, funcSigLine_some hr, hrv, if_neg (by simp)]
    rfl
  · rintro hr
    rw [hhead, funcSigLine_none hr]
    rfl
  · rintro r hr
    rw [hhead, funcSigLine_some hr]
    by_cases hrv : recvVarName r ≠ ""
    · exact ⟨recvVarName r ++ (" " ++ (r.typeText ++ (") " ++ (fn.name.name
        ++ trimFunc fn.typeText)))), by rw [if_pos hrv]; simp [renderLine, String.append_assoc]⟩
    · exact ⟨r.typeText ++ (") " ++ (fn.name.name ++ trimFunc fn.typeText)),
        by rw [if_neg hrv]; simp [renderLine, String.append_assoc]⟩

/-- Witness for C2: a concrete exported method with a bound receiver
variable renders exactly in Go source style. -/
theorem C2_witness :
    Ident.isExported ⟨"Connect"⟩ = true
  ∧ (processFuncDecl ⟨⟨"Connect"⟩, none, some ⟨[⟨"c"⟩], "*Client"⟩, "func() error"⟩).head?.map
        renderLine
      = some ("func (" ++ "c" ++ " " ++ "*Client" ++ ") " ++ "Connect" ++ trimFunc "func() error") := by
  refine ⟨by decide, ?_⟩
  exact (C2_method_format ⟨⟨"Connect"⟩, none, some ⟨[⟨"c"⟩], "*Client"⟩, "func() error"⟩
    (by decide)).1 ⟨[⟨"c"⟩], "*Client"⟩ ⟨"c"⟩ [] rfl rfl (by decide)

/-- Claim C3: an exported struct type renders as the header
`type <Name> struct` with open brace, the filtered field lines, and the
closing brace (followed by the shared doc block and blank line); the number
of field lines in the block equals the number of exported fields of the
source struct, and no unexported name occupies a declared-name position in
the block. -/
theorem C3_struct_block (genDoc : Option String) (name : Ident)
    (fields : List FieldEntry) (text : String) (hexp : name.isExported = true) :
    renderTypeSpec genDoc name (TypeE.structType (some fields) text)
      = (OutLine.structHeader name.name ::
          (fields.flatMap renderField ++ [OutLine.closeBrace]))
        ++ (docBlock genDoc ++ [OutLine.blank])
  ∧ (renderTypeSpec genDoc name (TypeE.structType (some fields) text)).countP isFieldLine
      = fields.countP exportedField
  ∧ (∀ l n, l ∈ renderTypeSpec genDoc name (TypeE.structType (some fields) text) →
       declaredNameOf l = some n → isExportedName n = true) := by
  have heq : renderTypeSpec genDoc name (TypeE.structType (some fields) text)
      = (OutLine.structHeader name.name ::
          (fields.flatMap renderField ++ [OutLine.closeBrace]))
        ++ (docBlock genDoc ++ [OutLine.blank]) := by
    unfold renderTypeSpec
    rw [if_pos hexp]
  refine ⟨heq, ?_, fun l n hl hn => renderTypeSpec_declaredName hl hn⟩
  rw [heq]
  have hdoc : (docBlock genDoc).countP isFieldLine = 0 := by
    simp only [docBlock]
    split <;> simp [isFieldLine]
  simp [List.countP_cons, List.countP_append, isFieldLine, hdoc,
    countP_flatMap_renderField]

/-- Witness for C3: a struct with exported field `A` and unexported field
`b` renders exactly one field line, matching its one exported field. -/
theorem C3_witness :
    Ident.isExported ⟨"T"⟩ = true
  ∧ (renderTypeSpec none ⟨"T"⟩ (TypeE.structType
        (some [⟨[⟨"A"⟩], "string", none⟩, ⟨[⟨"b"⟩], "int", none⟩]) "stext")).countP isFieldLine
      = ([⟨[⟨"A"⟩], "string", none⟩, ⟨[⟨"b"⟩], "int", none⟩] : List FieldEntry).countP
          exportedField := by
  refine ⟨by decide, ?_⟩
  exact (C3_struct_block none ⟨"T"⟩
    [⟨[⟨"A"⟩], "string", none⟩, ⟨[⟨"b"⟩], "int", none⟩] "stext" (by decide)).2.1

/-- Claim C4: a file whose content fails to parse produces no output lines
at all — its only contribution to the run is the error message, which names
the file and the underlying cause and contains no start or end marker —
and the files after it are still summarized. -/
theorem C4_parse_failure (fp msg : String) (pre post : List (String × ParseResult)) :
    summarizeFile fp (ParseResult.failed msg)
      = Except.error ("error parsing " ++ fp ++ ": " ++ msg)
  ∧ runFiles (pre ++ (fp, ParseResult.failed msg) :: post)
      = runFiles pre ++ (OutLine.errLine (parseErrMsg fp msg) :: runFiles post)
  ∧ List.countP isStartMarkLine [OutLine.errLine (parseErrMsg fp msg)] = 0
  ∧ List.countP isEndMarkLine [OutLine.errLine (parseErrMsg fp msg)] = 0 := by
  refine ⟨rfl, ?_, rfl, rfl⟩
  rw [runFiles_append, runFiles_cons]
  rfl

/-- Witness for C4: in a three-file run whose middle file is malformed, the
output is the first file's block, then the bare error line, then the third
file's block. -/
theorem C4_witness :
    runFiles ([("a.go", ParseResult.ok ⟨[]⟩)]
        ++ ("b.go", ParseResult.failed "oops") :: [("c.go", ParseResult.ok ⟨[]⟩)])
      = runFiles [("a.go", ParseResult.ok ⟨[]⟩)]
        ++ (OutLine.errLine (parseErrMsg "b.go" "oops")
            :: runFiles [("c.go", ParseResult.ok ⟨[]⟩)]) :=
  (C4_parse_failure "b.go" "oops" [("a.go", ParseResult.ok ⟨[]⟩)]
    [("c.go", ParseResult.ok ⟨[]⟩)]).2.1

/-- Claim C5: each exported name bound by a const/var spec renders on its
own line as `<label> <Name><typeClause><valueClause>` with label "const" or
"var" per the declaration keyword; the type clause is present iff the spec
explicitly states a type, the value clause iff an initializer exists at the
name's index, and the group-level doc is repeated under every exported
member. -/
theorem C5_value_render (tok : Tok) (genDoc : Option String) (names : List Ident)
    (typeText : Option String) (values : List (Option String)) (i : Nat) (name : Ident)
    (hexp : name.isExported = true) :
    renderSpec tok genDoc (Spec.valueSpec names typeText values)
      = names.enum.flatMap (fun p => renderValueName tok genDoc typeText values p.1 p.2)
  ∧ renderValueName tok genDoc typeText values i name
      = OutLine.valueLine (valueLabel tok) name.name (valueTypeStr typeText)
          (valueValueStr values i) :: (docBlock genDoc ++ [OutLine.blank])
  ∧ renderLine (OutLine.valueLine (valueLabel tok) name.name (valueTypeStr typeText)
        (valueValueStr values i))
      = valueLabel tok ++ " " ++ name.name ++ valueTypeStr typeText ++ valueValueStr values i
  ∧ valueLabel Tok.constTok = "const"
  ∧ valueLabel Tok.varTok = "var"
  ∧ valueTypeStr none = ""
  ∧ (∀ t, valueTypeStr (some t) = " " ++ t)
  ∧ (∀ j, values[j]? = none ∨ values[j]? = some none → valueValueStr values j = "")
  ∧ (∀ j v, values[j]? = some (some v) → valueValueStr values j = " = " ++ v)
  ∧ (∀ doc, genDoc = some doc → doc ≠ "" →
       OutLine.docLine (trimS doc) ∈ renderValueName tok genDoc typeText values i name) := by
  refine ⟨rfl, ?_, rfl, rfl, rfl, rfl, fun t => rfl, ?_, ?_, ?_⟩
  · unfold renderValueName
    rw [if_pos hexp]
  · intro j hj
    unfold valueValueStr
    rcases hj with hj | hj <;> rw [hj]
  · intro j v hj
    unfold valueValueStr
    rw [hj]
  · rintro doc rfl hd
    simp [renderValueName, hexp, docBlock, hd]

/-- Witness for C5: the exported const `X` of a group with a doc renders as
`const X int = 1` followed by the doc block and a blank line. -/
theorem C5_witness :
    Ident.isExported ⟨"X"⟩ = true
  ∧ renderValueName Tok.constTok (some "docs") (some "int") [some "1"] 0 ⟨"X"⟩
      = OutLine.valueLine (valueLabel Tok.constTok) "X" (valueTypeStr (some "int"))
          (valueValueStr [some "1"] 0) :: (docBlock (some "docs") ++ [OutLine.blank]) := by
  refine ⟨by decide, ?_⟩
  exact (C5_value_render Tok.constTok (some "docs") [⟨"X"⟩] (some "int") [some "1"] 0
    ⟨"X"⟩ (by decide)).2.1

/-- Claim C6: an exported type whose underlying type is not a struct with a
field list renders as the single line `type <Name> <fullTypeText>` where
the pretty-printed definition is passed through verbatim and unfiltered (so
an interface body is reproduced whole, unexported-looking method names
included, inside that text). -/
theorem C6_nonstruct_verbatim (genDoc : Option String) (name : Ident) (text : String)
    (hexp : name.isExported = true) :
    renderTypeSpec genDoc name (TypeE.otherType text)
      = OutLine.typeLine name.name text :: (docBlock genDoc ++ [OutLine.blank])
  ∧ renderLine (OutLine.typeLine name.name text) = "type " ++ name.name ++ " " ++ text := by
  refine ⟨?_, rfl⟩
  unfold renderTypeSpec
  rw [if_pos hexp]
  rfl

/-- Witness for C6: a concrete interface type is rendered whole, its
unexported-looking method name included in the verbatim text. -/
theorem C6_witness :
    Ident.isExported ⟨"Runner"⟩ = true
  ∧ renderTypeSpec none ⟨"Runner"⟩ (TypeE.otherType "interface ... run() ...")
      = OutLine.typeLine "Runner" "interface ... run() ..."
          :: (docBlock none ++ [OutLine.blank]) := by
  refine ⟨by decide, ?_⟩
  exact (C6_nonstruct_verbatim none ⟨"Runner"⟩ "interface ... run() ..." (by decide)).1

/-- Counterexample to C7 as stated: over a root that contains no test
files, discovery with `ignoreTests` on and off returns the same list, so
the inclusion is not strict there; the claim asserts strictness for every
root. -/
theorem C7_counterexample :
    findGoFiles "r" (FsEntry.dir "r" [FsEntry.file "a.go"]) true
      = findGoFiles "r" (FsEntry.dir "r" [FsEntry.file "a.go"]) false
  ∧ ¬ ({ p : String | p ∈ findGoFiles "r" (FsEntry.dir "r" [FsEntry.file "a.go"]) true }
        ⊂ { p : String | p ∈ findGoFiles "r" (FsEntry.dir "r" [FsEntry.file "a.go"]) false }) := by
  have h : findGoFiles "r" (FsEntry.dir "r" [FsEntry.file "a.go"]) true
      = findGoFiles "r" (FsEntry.dir "r" [FsEntry.file "a.go"]) false := by decide
  refine ⟨h, ?_⟩
  rw [h]
  exact ssubset_irrefl _

/-- Claim C7 (amended): over the same root, discovery with excludeTests on
returns exactly the excludeTests-off result with the "_test.go"-suffixed
paths filtered out — hence a subset (not necessarily strict), whose
difference is exactly the files whose names end in "_test.go". -/
theorem C7_subset_difference (rootPath : String) (root : FsEntry) :
    findGoFiles rootPath root true
      = (findGoFiles rootPath root false).filter (fun p => !(hasSuffix p "_test.go"))
  ∧ (∀ p : String, p ∈ findGoFiles rootPath root true
       ↔ (p ∈ findGoFiles rootPath root false ∧ hasSuffix p "_test.go" = false))
  ∧ (∀ p : String,
       (p ∈ findGoFiles rootPath root false ∧ p ∉ findGoFiles rootPath root true)
         ↔ (p ∈ findGoFiles rootPath root false ∧ hasSuffix p "_test.go" = true)) := by
  have h : findGoFiles rootPath root true
      = (findGoFiles rootPath root false).filter (fun p => !(hasSuffix p "_test.go")) :=
    walkStep_true_filter _
  have hmem : ∀ p : String, p ∈ findGoFiles rootPath root true
      ↔ (p ∈ findGoFiles rootPath root false ∧ hasSuffix p "_test.go" = false) := by
    intro p
    rw [h, List.mem_filter]
    simp
  refine ⟨h, hmem, ?_⟩
  intro p
  constructor
  · rintro ⟨hm, hnm⟩
    refine ⟨hm, ?_⟩
    rcases hts : hasSuffix p "_test.go" with _ | _
    · exact absurd ((hmem p).mpr ⟨hm, hts⟩) hnm
    · rfl
  · rintro ⟨hm, hts⟩
    refine ⟨hm, fun hmem2 => ?_⟩
    have := ((hmem p).mp hmem2).2
    rw [hts] at this
    cases this

/-- Witness for C7 (amended) at a concrete root holding one ordinary and
one test file. -/
theorem C7_witness :
    findGoFiles "r" (FsEntry.dir "r" [FsEntry.file "a.go", FsEntry.file "a_test.go"]) true
      = (findGoFiles "r" (FsEntry.dir "r" [FsEntry.file "a.go", FsEntry.file "a_test.go"])
            false).filter (fun p => !(hasSuffix p "_test.go")) :=
  (C7_subset_difference "r" (FsEntry.dir "r" [FsEntry.file "a.go", FsEntry.file "a_test.go"])).1

/-- Claim C8: discovery walks the full subtree — everything found under a
child of a directory root (at its joined path) is found for the root — and
a path is collected (with excludeTests off) iff it was visited as a
non-directory and ends in ".go". -/
theorem C8_recursive_discovery :
    (∀ (rootPath : String) (root : FsEntry) (p : String),
       p ∈ findGoFiles rootPath root false
         ↔ ((p, false) ∈ visits rootPath root ∧ hasSuffix p ".go" = true))
  ∧ (∀ (rootPath dirName : String) (entries : List FsEntry) (c : FsEntry) (b : Bool)
       (p : String), c ∈ entries →
       p ∈ findGoFiles (joinPath rootPath c.entryName) c b →
       p ∈ findGoFiles rootPath (FsEntry.dir dirName entries) b) :=
  ⟨fun _ _ _ => mem_findGoFiles_false,
   fun _ _ _ _ b _ hc hp => findGoFiles_subdir hc b hp⟩

/-- Witness for C8: a root whose top level holds no files at all still
yields the file nested one directory down. -/
theorem C8_witness :
    FsEntry.dir "sub" [FsEntry.file "x.go"] ∈ [FsEntry.dir "sub" [FsEntry.file "x.go"]]
  ∧ "root/sub/x.go" ∈ findGoFiles "root"
      (FsEntry.dir "root" [FsEntry.dir "sub" [FsEntry.file "x.go"]]) false := by
  refine ⟨List.mem_singleton.mpr rfl, ?_⟩
  exact C8_recursive_discovery.2 "root" "root" [FsEntry.dir "sub" [FsEntry.file "x.go"]]
    (FsEntry.dir "sub" [FsEntry.file "x.go"]) false "root/sub/x.go"
    (List.mem_singleton.mpr rfl) (by decide)

/-- Claim C9: summarizing is deterministic.  The summarizer is modelled as
a pure function of the file path and the file's (parsed) content, which is
faithful to the code: `summarizeFile` reads nothing but the file and keeps
no state across calls.  Two runs over the same unchanged content therefore
produce identical line sequences, identical rendered bytes, and identical
whole-run output. -/
theorem C9_deterministic (filePath : String) (parsed : ParseResult)
    (files : List (String × ParseResult)) :
    summarizeFile filePath parsed = summarizeFile filePath parsed
  ∧ Except.map (List.map renderLine) (summarizeFile filePath parsed)
      = Except.map (List.map renderLine) (summarizeFile filePath parsed)
  ∧ runFiles files = runFiles files :=
  ⟨rfl, rfl, rfl⟩

/-- Claim C10: anonymous (embedded) struct fields — fields binding no name
— are never rendered, whatever their type text; a field entry whose first
name is unexported is dropped whole, its later names never consulted; and
any declared name a field line carries is the entry's first name. -/
theorem C10_field_name_rules :
    (∀ (typeText : String) (doc : Option String),
        renderField ⟨[], typeText, doc⟩ = [])
  ∧ (∀ (nm : Ident) (rest : List Ident) (typeText : String) (doc : Option String),
        nm.isExported = false → renderField ⟨nm :: rest, typeText, doc⟩ = [])
  ∧ (∀ (f : FieldEntry) (l : OutLine) (n : String),
        l ∈ renderField f → declaredNameOf l = some n →
        ∃ nm rest, f.names = nm :: rest ∧ n = nm.name ∧ nm.isExported = true) :=
  ⟨fun _ _ => renderField_anonymous,
   fun _ _ _ _ h => renderField_unexported_head h,
   fun _ _ _ hl hn => renderField_first_name hl hn⟩

/-- Witness for C10: an embedded field with exported-looking type text
renders nothing, and a two-name entry headed by unexported `x` renders
nothing even though its second name `Y` is exported. -/
theorem C10_witness :
    Ident.isExported ⟨"x"⟩ = false
  ∧ renderField ⟨[⟨"x"⟩, ⟨"Y"⟩], "int", none⟩ = []
  ∧ renderField ⟨[], "Embedded", none⟩ = [] :=
  ⟨by decide,
   C10_field_name_rules.2.1 ⟨"x"⟩ [⟨"Y"⟩] "int" none (by decide),
   C10_field_name_rules.1 "Embedded" none⟩

end GoSummarize
